import Mathlib

/-!
Formal model of the postgoose migration runner (`goose.py`).

The development embeds, as executable Lean definitions:
  * `digest` — `sha256(s.encode("utf-8")).hexdigest()` (goose.py line 310),
    via a full SHA-256 implementation over `Nat`;
  * the `Migration` record (goose_utils.py);
  * the migration-directory loader (`get_migration_id`,
    `get_migration_files_filtered`, `get_max_migration_id`,
    `assert_all_migrations_present`, `parse_migrations`);
  * the divergence engine `get_diff` (goose.py lines 333-387);
  * the apply/unapply engine (`apply_up`, `apply_down`, `apply_all`,
    `unapply_all`) and the reconciliation runner (`run_migrations`,
    lines 191-247), with the database modelled as an explicit state and
    the SQL executor as an oracle `ExecEnv` deciding which statements
    succeed.  The enclosing transaction (`with conn:`) is modelled by
    `committedLedger`: an error discards the transaction state.

Theorems about the spec's claims follow the definitions.
-/

set_option maxRecDepth 1000000

namespace Goose

/-! ### SHA-256 over `Nat` (model of `hashlib.sha256(...).hexdigest()`) -/

/-- truncate to a 32-bit word -/
def w32 (x : Nat) : Nat := x % 4294967296

/-- rotate a 32-bit word right by `n` -/
def rotr (n x : Nat) : Nat := w32 ((x >>> n) ||| (x <<< (32 - n)))

def bsig0 (x : Nat) : Nat := (rotr 2 x) ^^^ (rotr 13 x) ^^^ (rotr 22 x)
def bsig1 (x : Nat) : Nat := (rotr 6 x) ^^^ (rotr 11 x) ^^^ (rotr 25 x)
def ssig0 (x : Nat) : Nat := (rotr 7 x) ^^^ (rotr 18 x) ^^^ (x >>> 3)
def ssig1 (x : Nat) : Nat := (rotr 17 x) ^^^ (rotr 19 x) ^^^ (x >>> 10)
def ch (x y z : Nat) : Nat := (x &&& y) ^^^ ((x ^^^ 4294967295) &&& z)
def maj (x y z : Nat) : Nat := (x &&& y) ^^^ (x &&& z) ^^^ (y &&& z)

/-- the SHA-256 round constants -/
def shaK : List Nat :=
  [1116352408, 1899447441, 3049323471, 3921009573,
   961987163, 1508970993, 2453635748, 2870763221,
   3624381080, 310598401, 607225278, 1426881987,
   1925078388, 2162078206, 2614888103, 3248222580,
   3835390401, 4022224774, 264347078, 604807628,
   770255983, 1249150122, 1555081692, 1996064986,
   2554220882, 2821834349, 2952996808, 3210313671,
   3336571891, 3584528711, 113926993, 338241895,
   666307205, 773529912, 1294757372, 1396182291,
   1695183700, 1986661051, 2177026350, 2456956037,
   2730485921, 2820302411, 3259730800, 3345764771,
   3516065817, 3600352804, 4094571909, 275423344,
   430227734, 506948616, 659060556, 883997877,
   958139571, 1322822218, 1537002063, 1747873779,
   1955562222, 2024104815, 2227730452, 2361852424,
   2428436474, 2756734187, 3204031479, 3329325298]

/-- append the SHA-256 padding to a byte list, reaching a multiple of 64 bytes -/
def shaPad (msg : List Nat) : List Nat :=
  let L := msg.length
  let zeros := (119 - (L % 64)) % 64
  msg ++ [0x80] ++ List.replicate zeros 0 ++
    [((8*L) >>> 56) % 256, ((8*L) >>> 48) % 256, ((8*L) >>> 40) % 256, ((8*L) >>> 32) % 256,
     ((8*L) >>> 24) % 256, ((8*L) >>> 16) % 256, ((8*L) >>> 8) % 256, (8*L) % 256]

/-- big-endian 32-bit words from a byte list -/
def toWords : List Nat → List Nat
  | b0 :: b1 :: b2 :: b3 :: rest =>
      (((b0 <<< 24) ||| (b1 <<< 16)) ||| ((b2 <<< 8) ||| b3)) :: toWords rest
  | _ => []

/-- one step of the message-schedule extension -/
def extendStep (ws : List Nat) : List Nat :=
  ws ++ [w32 (ssig1 (ws.getD (ws.length - 2) 0) + ws.getD (ws.length - 7) 0 +
              ssig0 (ws.getD (ws.length - 15) 0) + ws.getD (ws.length - 16) 0)]

def extendN : Nat → List Nat → List Nat
  | 0, ws => ws
  | n+1, ws => extendN n (extendStep ws)

/-- the eight 32-bit working variables of SHA-256 -/
structure Hash8 where
  a : Nat
  b : Nat
  c : Nat
  d : Nat
  e : Nat
  f : Nat
  g : Nat
  h : Nat
deriving DecidableEq

/-- one SHA-256 compression round -/
def shaRound (st : Hash8) (kw : Nat × Nat) : Hash8 :=
  let t1 := w32 (st.h + bsig1 st.e + ch st.e st.f st.g + kw.1 + kw.2)
  let t2 := w32 (bsig0 st.a + maj st.a st.b st.c)
  ⟨w32 (t1 + t2), st.a, st.b, st.c, w32 (st.d + t1), st.e, st.f, st.g⟩

/-- compress one 64-byte block into the running hash -/
def compress (st : Hash8) (block : List Nat) : Hash8 :=
  let ws := extendN 48 (toWords block)
  let r := (shaK.zip ws).foldl shaRound st
  ⟨w32 (st.a + r.a), w32 (st.b + r.b), w32 (st.c + r.c), w32 (st.d + r.d),
   w32 (st.e + r.e), w32 (st.f + r.f), w32 (st.g + r.g), w32 (st.h + r.h)⟩

/-- split into 64-byte chunks; the fuel argument keeps the recursion
structural so the kernel can evaluate it -/
def chunks64Aux : Nat → List Nat → List (List Nat)
  | 0, _ => []
  | _, [] => []
  | fuel+1, x :: rest => ((x :: rest).take 64) :: chunks64Aux fuel ((x :: rest).drop 64)

def chunks64 (l : List Nat) : List (List Nat) := chunks64Aux l.length l

/-- SHA-256 of a byte list, as eight 32-bit words -/
def sha256Words (msg : List Nat) : List Nat :=
  let st := (chunks64 (shaPad msg)).foldl compress
    ⟨1779033703, 3144134277, 1013904242, 2773480762, 1359893119, 2600822924, 528734635, 1541459225⟩
  [st.a, st.b, st.c, st.d, st.e, st.f, st.g, st.h]

/-- UTF-8 encoding of a single code point (Python `str.encode("utf-8")`) -/
def utf8Bytes (c : Nat) : List Nat :=
  if c < 0x80 then [c]
  else if c < 0x800 then [0xC0 ||| (c >>> 6), 0x80 ||| (c &&& 0x3F)]
  else if c < 0x10000 then
    [0xE0 ||| (c >>> 12), 0x80 ||| ((c >>> 6) &&& 0x3F), 0x80 ||| (c &&& 0x3F)]
  else
    [0xF0 ||| (c >>> 18), 0x80 ||| ((c >>> 12) &&& 0x3F),
     0x80 ||| ((c >>> 6) &&& 0x3F), 0x80 ||| (c &&& 0x3F)]

/-- UTF-8 bytes of a string -/
def strBytes (s : String) : List Nat :=
  s.data.foldr (fun c acc => utf8Bytes c.toNat ++ acc) []

/-- lowercase hex digit -/
def hexChar (n : Nat) : Char := if n < 10 then Char.ofNat (48 + n) else Char.ofNat (87 + n)

/-- eight lowercase hex digits of a 32-bit word -/
def toHex8 (x : Nat) : List Char :=
  [hexChar ((x >>> 28) &&& 15), hexChar ((x >>> 24) &&& 15), hexChar ((x >>> 20) &&& 15),
   hexChar ((x >>> 16) &&& 15), hexChar ((x >>> 12) &&& 15), hexChar ((x >>> 8) &&& 15),
   hexChar ((x >>> 4) &&& 15), hexChar (x &&& 15)]

/-- goose.py line 310: `digest(s) = sha256(s.encode("utf-8")).hexdigest()` -/
def digest (s : String) : String :=
  String.mk ((sha256Words (strBytes s)).foldr (fun w acc => toHex8 w ++ acc) [])

/-! ### Data model (goose_utils.py) -/

/-- the `Migration` dataclass of goose_utils.py; migration ids in this
repository are the positive integers coming from `{id}_up.sql` filenames
and from the `migration_id int` ledger column, modelled as `Nat` -/
structure Migration where
  migration_id : Nat
  up_digest : String
  up : String
  down_digest : String
  down : String
deriving DecidableEq

/-- sort key used throughout goose.py: `key=lambda m: m.migration_id` -/
def keyId (m : Migration) : Nat := m.migration_id

/-- Python `sorted(l, key=keyId)`: stable, ascending by key -/
def pySorted (l : List Migration) : List Migration :=
  List.insertionSort (fun a b => keyId a ≤ keyId b) l

/-- Python `sorted(l, key=keyId, reverse=True)`: stable, descending by key -/
def pySortedRev (l : List Migration) : List Migration :=
  List.insertionSort (fun a b => keyId b ≤ keyId a) l

/-! ### Errors

Each constructor records one of the ways goose.py aborts, with the data
the Python exception carries.  `runtimeErrorFailedAt` is the
`RuntimeError(f"failed at migration number: {old_branch[0].migration_id}")`
of line 244: the message interpolates only that one migration id. -/

inductive RunError where
  /-- `ValueError: max() arg is an empty sequence`, from `get_max_migration_id` -/
  | valueErrorEmptyMax
  /-- `RuntimeError` of `get_migration_id` (line 27): filename without integer head -/
  | malformedFilename (name : String)
  /-- `AssertionError` of `assert_all_migrations_present` lines 50-51 -/
  | missingUps (id : Nat)
  | missingDowns (id : Nat)
  /-- `exit(3)` of line 62 for files outside the expected naming pattern -/
  | extraFiles (files : List String)
  /-- missing file discovered by `open` in `parse_migration` -/
  | fileNotFound (name : String)
  /-- a failed `cursor.execute` of a migration body -/
  | execFailed (stmt : String)
  /-- `AssertionError` of `apply_all` / `unapply_all` order checks -/
  | assertionFailed
  /-- `RuntimeError` of line 244, carrying `old_branch[0].migration_id` -/
  | runtimeErrorFailedAt (id : Nat)
deriving DecidableEq

/-! ### Migration Set Loader (goose.py lines 23-94)

A directory is modelled as an association list from filename to file
contents, the result of `os.listdir` plus reading. -/

abbrev Dir := List (String × String)

/-- Python `str.lower()` (ASCII case folding, as filenames use) -/
def pyLower (s : String) : String := String.mk (s.data.map Char.toLower)

/-- Python `str.endswith(t)` -/
def pyEndsWith (s t : String) : Bool := t.data.isSuffixOf s.data

/-- Python `s.split('_')[0]`: the characters before the first underscore -/
def pySplitHeadUnderscore (s : String) : String :=
  String.mk (s.data.takeWhile (fun c => c ≠ '_'))

/-- Python `int(s)` for the plain digit strings migration filenames use;
anything else raises (modelled as `none`) -/
def pyToNat (s : String) : Option Nat :=
  if s.data ≠ [] ∧ s.data.all (fun c => c.isDigit) then
    some (s.data.foldl (fun acc c => 10 * acc + (c.toNat - 48)) 0)
  else none

/-- goose.py line 23: `int(file_name.split('_')[0])`; a non-numeric head is
the `RuntimeError` of line 27 -/
def get_migration_id (file_name : String) : Except RunError Nat :=
  match pyToNat (pySplitHeadUnderscore file_name) with
  | some n => .ok n
  | none => .error (.malformedFilename file_name)

/-- goose.py line 36: files whose lowercased name ends in ".sql" -/
def get_migration_files_filtered (dir : Dir) : List String :=
  (dir.map (fun f => f.1)).filter (fun f => pyEndsWith (pyLower f) ".sql")

/-- goose.py line 32: `max(get_migration_id(f) for f in filenames)`;
Python `max` raises `ValueError` on an empty sequence -/
def get_max_migration_id (filenames : List String) : Except RunError Nat := do
  let ids ← filenames.mapM get_migration_id
  match ids with
  | [] => .error .valueErrorEmptyMax
  | i :: rest => .ok (rest.foldl max i)

/-- filename `f"{migration_id}_up.sql"` -/
def upName (id : Nat) : String := toString id ++ "_up.sql"

/-- filename `f"{migration_id}_down.sql"` -/
def downName (id : Nat) : String := toString id ++ "_down.sql"

/-- the per-id membership asserts of goose.py lines 48-51 -/
def checkPairsPresent (filenames : List String) : List Nat → Except RunError Unit
  | [] => .ok ()
  | id :: rest =>
    if upName id ∈ filenames then
      if downName id ∈ filenames then checkPairsPresent filenames rest
      else .error (.missingDowns id)
    else .error (.missingUps id)

/-- goose.py lines 40-62.  An empty filtered listing returns successfully
("Exiting gracefully!"); otherwise every id in `1..max` must have both
halves, and any leftover file is fatal (`exit(3)`). -/
def assert_all_migrations_present (dir : Dir) : Except RunError Unit := do
  let filenames := get_migration_files_filtered dir
  if filenames = [] then
    return ()
  else
    let maxId ← get_max_migration_id filenames
    checkPairsPresent filenames (List.range' 1 maxId)
    let expected := (List.range' 1 maxId).foldr (fun i acc => upName i :: downName i :: acc) []
    let extra := filenames.filter (fun f => ¬ f ∈ expected)
    if extra = [] then return () else .error (.extraFiles extra)

/-- goose.py lines 76-94: read both halves, compute digests, build the record -/
def parse_migration (dir : Dir) (migration_id : Nat) : Except RunError Migration :=
  match dir.lookup (upName migration_id) with
  | none => .error (.fileNotFound (upName migration_id))
  | some up =>
    match dir.lookup (downName migration_id) with
    | none => .error (.fileNotFound (downName migration_id))
    | some down =>
      .ok { migration_id := migration_id, up_digest := digest up, up := up,
            down_digest := digest down, down := down }

/-- goose.py lines 65-73: `parse_migration` for every id in `range(1, max+1)`;
note `get_max_migration_id` is applied to the listing unconditionally -/
def parse_migrations (dir : Dir) : Except RunError (List Migration) := do
  let maxId ← get_max_migration_id (get_migration_files_filtered dir)
  (List.range' 1 maxId).mapM (parse_migration dir)

/-- the loading stage of `run_migrations` (lines 206 and 227-229):
validate the directory, then parse it -/
def load_migrations (dir : Dir) : Except RunError (List Migration) := do
  assert_all_migrations_present dir
  parse_migrations dir

/-! ### Database state and the SQL executor -/

/-- the observable database state: the ledger rows of the migrations
table, plus the log of SQL bodies executed in the current transaction -/
structure DbState where
  ledger : List Migration
  executed : List String
deriving DecidableEq

/-- the SQL executor oracle: which statement bodies execute successfully -/
abbrev ExecEnv := String → Bool

/-- a step either produces a new transaction state or raises, carrying the
transaction state reached when the exception was raised -/
abbrev StepResult := Except (RunError × DbState) DbState

/-- `cursor.execute(stmt)` for a migration body -/
def execStmt (env : ExecEnv) (s : DbState) (stmt : String) : StepResult :=
  if env stmt then .ok { s with executed := s.executed ++ [stmt] }
  else .error (.execFailed stmt, s)

/-- the row the INSERT of goose.py lines 272-284 writes: digests are
recomputed from the bodies, the record's digest fields are not read -/
def insertedRow (m : Migration) : Migration :=
  { migration_id := m.migration_id, up_digest := digest m.up, up := m.up,
    down_digest := digest m.down, down := m.down }

/-- goose.py lines 267-284: execute the up body, then insert the ledger row -/
def apply_up (env : ExecEnv) (s : DbState) (m : Migration) : StepResult := do
  let s1 ← execStmt env s m.up
  .ok { s1 with ledger := s1.ledger ++ [insertedRow m] }

/-- goose.py lines 287-296: execute the down body unless it is empty, then
delete the ledger row with this migration id -/
def apply_down (env : ExecEnv) (s : DbState) (m : Migration) : StepResult := do
  let s1 ← (if m.down ≠ "" then execStmt env s m.down else .ok s)
  .ok { s1 with ledger := s1.ledger.filter (fun r => r.migration_id ≠ m.migration_id) }

def applyUpList (env : ExecEnv) : DbState → List Migration → StepResult
  | s, [] => .ok s
  | s, m :: rest => do
    let s1 ← apply_up env s m
    applyUpList env s1 rest

def applyDownList (env : ExecEnv) : DbState → List Migration → StepResult
  | s, [] => .ok s
  | s, m :: rest => do
    let s1 ← apply_down env s m
    applyDownList env s1 rest

/-- goose.py lines 250-255: assert ascending order, then apply each -/
def apply_all (env : ExecEnv) (s : DbState) (migrations : List Migration) : StepResult :=
  if pySorted migrations = migrations then applyUpList env s migrations
  else .error (.assertionFailed, s)

/-- goose.py lines 258-264: assert descending order, then unapply each -/
def unapply_all (env : ExecEnv) (s : DbState) (migrations : List Migration) : StepResult :=
  if pySortedRev migrations = migrations then applyDownList env s migrations
  else .error (.assertionFailed, s)

/-! ### Divergence Engine (goose.py lines 333-387) -/

/-- the per-pair comparison of the lockstep walk: under
`strict_digest_check` compare freshly computed digests of the up bodies,
otherwise compare the stored `up_digest` fields -/
def upDigestsMatch (strict : Bool) (db_migration file_migration : Migration) : Bool :=
  if strict then digest db_migration.up == digest file_migration.up
  else db_migration.up_digest == file_migration.up_digest

/-- the `for ... in zip(...)` loop of lines 341-355: the first pair whose
comparison differs yields its database migration -/
def findDivergence (strict : Bool) : List (Migration × Migration) → Option Migration
  | [] => none
  | (d, f) :: rest =>
    if upDigestsMatch strict d f then findDivergence strict rest else some d

/-- lines 377-380: `max(m.migration_id for m in db_migrations)`, with the
empty case handled one line above as 0 -/
def maxIdOf : List Migration → Nat
  | [] => 0
  | m :: rest => rest.foldl (fun acc x => max acc x.migration_id) m.migration_id

/-- goose.py lines 333-387 -/
def get_diff (db_migrations file_system_migrations : List Migration)
    (strict_digest_check : Bool) : List Migration × List Migration :=
  match findDivergence strict_digest_check (db_migrations.zip file_system_migrations) with
  | some first_divergence =>
    (pySortedRev (db_migrations.filter
        (fun m => first_divergence.migration_id ≤ m.migration_id)),
     pySorted (file_system_migrations.filter
        (fun m => first_divergence.migration_id ≤ m.migration_id)))
  | none =>
    let max_old_id := if db_migrations.isEmpty then 0 else maxIdOf db_migrations
    ([], pySorted (file_system_migrations.filter (fun m => max_old_id < m.migration_id)))

/-! ### Reconciliation Runner (goose.py lines 191-247)

`run_reconciliation` is the body of `run_migrations` from line 224 on:
the database history has been read (`db`), the filesystem set parsed
(`fs`); both are sorted, diffed, and the branches executed inside the
enclosing transaction. -/

def run_reconciliation (env : ExecEnv) (db fs : List Migration)
    (auto_apply_down strict_digest_check : Bool) : StepResult :=
  match get_diff (pySorted db) (pySorted fs) strict_digest_check with
  | (old_branch, new_branch) =>
    match old_branch with
    | [] => apply_all env ⟨db, []⟩ new_branch
    | o :: rest =>
      if auto_apply_down then do
        let s1 ← unapply_all env ⟨db, []⟩ (o :: rest)
        apply_all env s1 new_branch
      else .error (.runtimeErrorFailedAt o.migration_id, ⟨db, []⟩)

/-- `run_migrations` (lines 191-247) with the external collaborators
(CLI, connection, schema/role session options, lock) stripped: load the
directory, then reconcile against the given database history -/
def run_migrations (env : ExecEnv) (dir : Dir) (db : List Migration)
    (auto_apply_down strict_digest_check : Bool) : StepResult :=
  match load_migrations dir with
  | .error e => .error (e, { ledger := db, executed := [] })
  | .ok fs => run_reconciliation env db fs auto_apply_down strict_digest_check

/-- the `with conn:` block of line 210: on success the transaction commits
and the new ledger is durable; on an exception it rolls back and the
database keeps its pre-run history -/
def committedLedger (db : List Migration) (r : StepResult) : List Migration :=
  match r with
  | .ok s => s.ledger
  | .error _ => db

/-- the exception component of a failed step -/
def errorOf (r : StepResult) : Option RunError :=
  match r with
  | .ok _ => none
  | .error (e, _) => some e

/-- a ledger row or migration record whose stored digests are the digests
of its stored bodies -/
def WfRow (m : Migration) : Prop :=
  m.up_digest = digest m.up ∧ m.down_digest = digest m.down


/-! ### Sample values used to instantiate the theorems below -/

/-- a ledger row as originally applied -/
def sM1 : Migration := ⟨1, "A", "U1", "AD", "D1"⟩

/-- a second, later ledger row -/
def sM2 : Migration := ⟨2, "C", "U2", "CD", "D2"⟩

/-- like `sM2` but with different bodies -/
def sM2x : Migration := ⟨2, "C", "U2x", "CD", "D2x"⟩

/-- a filesystem migration replacing `sM1` with edited bodies -/
def sF1 : Migration := ⟨1, "B", "U1x", "BD", "D1x"⟩

/-- database row with up body "a" -/
def cM1 : Migration := ⟨1, "da", "a", "dx", "x"⟩

/-- filesystem migration with up body "b" -/
def cF1 : Migration := ⟨1, "dbx", "b", "dy", "y"⟩

/-- a migration whose stored digests match its bodies -/
def wM1 : Migration := ⟨1, digest "x", "x", digest "xd", "xd"⟩

/-- a second well-formed migration with different bodies -/
def wF1 : Migration := ⟨1, digest "z", "z", digest "zd", "zd"⟩

/-- an executor on which every statement succeeds -/
def envAll : ExecEnv := fun _ => true

/-- an executor failing exactly on the up body of `sF1` -/
def envFailU1x : ExecEnv := fun stmt => !(stmt == "U1x")

/-- an empty database state -/
def sEmpty : DbState := ⟨[], []⟩

/-- a directory containing no .sql files at all -/
def dirNoSql : Dir := [("README.md", "docs")]

/-- a directory holding exactly migration 1 -/
def dirOne : Dir := [("1_up.sql", "u1"), ("1_down.sql", "d1")]


instance {e a : Type} [DecidableEq e] [DecidableEq a] : DecidableEq (Except e a) := fun x y =>
  match x, y with
  | .ok v, .ok w =>
    if h : v = w then isTrue (congrArg Except.ok h)
    else isFalse (fun hc => h (Except.ok.inj hc))
  | .error v, .error w =>
    if h : v = w then isTrue (congrArg Except.error h)
    else isFalse (fun hc => h (Except.error.inj hc))
  | .ok _, .error _ => isFalse (fun hc => Except.noConfusion hc)
  | .error _, .ok _ => isFalse (fun hc => Except.noConfusion hc)

/-! ### Sorting lemmas -/

/-- migration ids strictly ascending -/
def StrictAsc (l : List Migration) : Prop :=
  List.Pairwise (fun a b => a.migration_id < b.migration_id) l

/-- migration ids strictly descending -/
def StrictDesc (l : List Migration) : Prop :=
  List.Pairwise (fun a b => b.migration_id < a.migration_id) l

instance : IsTotal Migration (fun a b => keyId a ≤ keyId b) :=
  ⟨fun a b => Nat.le_total _ _⟩

instance : IsTrans Migration (fun a b => keyId a ≤ keyId b) :=
  ⟨fun _ _ _ h1 h2 => Nat.le_trans h1 h2⟩

instance : IsTotal Migration (fun a b => keyId b ≤ keyId a) :=
  ⟨fun a b => Nat.le_total _ _⟩

instance : IsTrans Migration (fun a b => keyId b ≤ keyId a) :=
  ⟨fun _ _ _ h1 h2 => Nat.le_trans h2 h1⟩

theorem pySorted_sorted (l : List Migration) :
    List.Sorted (fun a b => keyId a ≤ keyId b) (pySorted l) :=
  List.sorted_insertionSort _ l

theorem pySortedRev_sorted (l : List Migration) :
    List.Sorted (fun a b => keyId b ≤ keyId a) (pySortedRev l) :=
  List.sorted_insertionSort _ l

theorem pySorted_eq_self {l : List Migration}
    (h : List.Sorted (fun a b => keyId a ≤ keyId b) l) : pySorted l = l :=
  h.insertionSort_eq

theorem pySortedRev_eq_self {l : List Migration}
    (h : List.Sorted (fun a b => keyId b ≤ keyId a) l) : pySortedRev l = l :=
  h.insertionSort_eq

theorem pySorted_eq_self_iff (l : List Migration) :
    pySorted l = l ↔ List.Sorted (fun a b => keyId a ≤ keyId b) l :=
  ⟨fun h => h ▸ pySorted_sorted l, pySorted_eq_self⟩

theorem pySortedRev_eq_self_iff (l : List Migration) :
    pySortedRev l = l ↔ List.Sorted (fun a b => keyId b ≤ keyId a) l :=
  ⟨fun h => h ▸ pySortedRev_sorted l, pySortedRev_eq_self⟩

theorem pySorted_idem (l : List Migration) : pySorted (pySorted l) = pySorted l :=
  pySorted_eq_self (pySorted_sorted l)

theorem pySortedRev_idem (l : List Migration) : pySortedRev (pySortedRev l) = pySortedRev l :=
  pySortedRev_eq_self (pySortedRev_sorted l)

theorem StrictAsc.sorted_le {l : List Migration} (h : StrictAsc l) :
    List.Sorted (fun a b => keyId a ≤ keyId b) l :=
  h.imp (fun hab => Nat.le_of_lt hab)

theorem StrictAsc.filter (p : Migration → Bool) {l : List Migration} (h : StrictAsc l) :
    StrictAsc (l.filter p) :=
  List.Pairwise.sublist (List.filter_sublist l) h

theorem StrictAsc.drop (j : Nat) {l : List Migration} (h : StrictAsc l) :
    StrictAsc (l.drop j) :=
  List.Pairwise.sublist (List.drop_sublist j l) h

theorem orderedInsert_append_of_forall_not (r : Migration → Migration → Prop)
    [DecidableRel r] (x : Migration) :
    ∀ l : List Migration, (∀ y ∈ l, ¬ r x y) → List.orderedInsert r x l = l ++ [x]
  | [], _ => rfl
  | y :: ys, h => by
    rw [List.orderedInsert, if_neg (h y (List.mem_cons_self y ys)),
      orderedInsert_append_of_forall_not r x ys (fun z hz => h z (List.mem_cons_of_mem y hz))]
    rfl

theorem pySortedRev_eq_reverse : ∀ {l : List Migration}, StrictAsc l → pySortedRev l = l.reverse
  | [], _ => rfl
  | x :: xs, h => by
    have hx : ∀ b ∈ xs, x.migration_id < b.migration_id := (List.pairwise_cons.mp h).1
    have ih := pySortedRev_eq_reverse (List.pairwise_cons.mp h).2
    show List.orderedInsert _ x (List.insertionSort _ xs) = _
    rw [show List.insertionSort (fun a b => keyId b ≤ keyId a) xs = pySortedRev xs from rfl,
      ih, orderedInsert_append_of_forall_not _ x xs.reverse
        (fun y hy => Nat.not_le_of_lt (hx y (List.mem_reverse.mp hy))),
      List.reverse_cons]

/-! ### Lockstep-walk lemmas -/

theorem findDivergence_eq_none_iff (strict : Bool) (ps : List (Migration × Migration)) :
    findDivergence strict ps = none ↔ ∀ p ∈ ps, upDigestsMatch strict p.1 p.2 = true := by
  induction ps with
  | nil => simp [findDivergence]
  | cons q rest ih =>
    obtain ⟨d, f⟩ := q
    by_cases h : upDigestsMatch strict d f = true
    · simp [findDivergence, h, ih]
    · rw [Bool.not_eq_true] at h
      simp only [findDivergence, h, Bool.false_eq_true, if_false]
      constructor
      · intro hc; exact absurd hc (by simp)
      · intro hall
        exact absurd (hall (d, f) (List.mem_cons_self _ _)) (by simp [h])

theorem findDivergence_eq_some_of (strict : Bool) :
    ∀ (ps : List (Migration × Migration)) (i : Nat) (d f : Migration),
      ps[i]? = some (d, f) →
      (∀ j, j < i → ∀ p : Migration × Migration,
        ps[j]? = some p → upDigestsMatch strict p.1 p.2 = true) →
      upDigestsMatch strict d f = false →
      findDivergence strict ps = some d
  | [], i, d, f, hi, _, _ => by simp at hi
  | q :: rest, 0, d, f, hi, _, hne => by
    simp only [List.getElem?_cons_zero, Option.some.injEq] at hi
    subst hi
    simp [findDivergence, hne]
  | q :: rest, i + 1, d, f, hi, hpre, hne => by
    have hq : upDigestsMatch strict q.1 q.2 = true :=
      hpre 0 (Nat.succ_pos i) q (by simp)
    obtain ⟨d0, f0⟩ := q
    simp only [List.getElem?_cons_succ] at hi
    simp only [findDivergence, hq, if_true]
    exact findDivergence_eq_some_of strict rest i d f hi
      (fun j hj p hp => hpre (j + 1) (Nat.succ_lt_succ hj) p (by simpa using hp)) hne

theorem findDivergence_eq_some_elim (strict : Bool) :
    ∀ (ps : List (Migration × Migration)) (d : Migration),
      findDivergence strict ps = some d →
      ∃ i : Nat, ∃ f : Migration,
        ps[i]? = some (d, f) ∧ upDigestsMatch strict d f = false ∧
        ∀ j, j < i → ∀ p : Migration × Migration,
          ps[j]? = some p → upDigestsMatch strict p.1 p.2 = true
  | [], d, h => by simp [findDivergence] at h
  | (d0, f0) :: rest, d, h => by
    by_cases hm : upDigestsMatch strict d0 f0 = true
    · simp only [findDivergence, hm, if_true] at h
      obtain ⟨i, f, hi, hne, hpre⟩ := findDivergence_eq_some_elim strict rest d h
      refine ⟨i + 1, f, by rw [List.getElem?_cons_succ]; exact hi, hne, ?_⟩
      intro j hj p hp
      match j with
      | 0 =>
        simp only [List.getElem?_cons_zero, Option.some.injEq] at hp
        subst hp; exact hm
      | j + 1 =>
        simp only [List.getElem?_cons_succ] at hp
        exact hpre j (Nat.lt_of_succ_lt_succ hj) p hp
    · rw [Bool.not_eq_true] at hm
      simp only [findDivergence, hm, Bool.false_eq_true, if_false, Option.some.injEq] at h
      subst h
      exact ⟨0, f0, List.getElem?_cons_zero, hm,
        fun j hj p hp => absurd hj (Nat.not_lt_zero j)⟩

/-! ### Lemmas about lists whose ids form a contiguous range -/

theorem keys_cons_range' {x : Migration} {xs : List Migration} {s n : Nat}
    (h : (x :: xs).map keyId = List.range' s n) :
    x.migration_id = s ∧ xs.map keyId = List.range' (s + 1) (n - 1) ∧ n ≠ 0 := by
  match n with
  | 0 => simp at h
  | n + 1 =>
    rw [List.range'_succ] at h
    simp only [List.map_cons, List.cons.injEq] at h
    exact ⟨h.1, by simpa using h.2, Nat.succ_ne_zero n⟩

theorem key_bounds_of_map_range' {l : List Migration} {s n : Nat}
    (h : l.map keyId = List.range' s n) :
    ∀ m ∈ l, s ≤ m.migration_id ∧ m.migration_id < s + n := by
  intro m hm
  have hmem : keyId m ∈ List.range' s n := h ▸ List.mem_map_of_mem keyId hm
  simpa using (List.mem_range'_1).mp hmem

theorem strictAsc_of_map_range' {l : List Migration} {s n : Nat}
    (h : l.map keyId = List.range' s n) : StrictAsc l := by
  have hp := List.pairwise_lt_range' s n
  rw [← h] at hp
  exact List.pairwise_map.mp hp

theorem filter_key_ge_eq_drop :
    ∀ (l : List Migration) (s n k : Nat), l.map keyId = List.range' s n → s ≤ k →
      l.filter (fun m => k ≤ m.migration_id) = l.drop (k - s)
  | [], _, _, _, _, _ => by simp
  | x :: xs, s, n, k, h, hk => by
    obtain ⟨hx, hxs, hn⟩ := keys_cons_range' h
    by_cases hks : k ≤ s
    · have hkeq : k = s := Nat.le_antisymm hks hk
      subst hkeq
      rw [Nat.sub_self, List.drop_zero]
      refine List.filter_eq_self.mpr (fun m hm => ?_)
      exact decide_eq_true ((key_bounds_of_map_range' h m hm).1)
    · have hsk : s + 1 ≤ k := Nat.succ_le_of_lt (Nat.lt_of_not_le hks)
      have hhead : ¬ (k ≤ x.migration_id) := by rw [hx]; exact fun hc => hks hc
      rw [List.filter_cons_of_neg (by simpa using hhead),
        filter_key_ge_eq_drop xs (s + 1) (n - 1) k hxs hsk,
        show k - s = (k - (s + 1)) + 1 by omega, List.drop_succ_cons]

theorem filter_key_gt_eq_drop (l : List Migration) (s n c : Nat)
    (h : l.map keyId = List.range' s n) (hc : s ≤ c + 1) :
    l.filter (fun m => c < m.migration_id) = l.drop (c + 1 - s) := by
  have hcg : l.filter (fun m => c < m.migration_id)
      = l.filter (fun m => c + 1 ≤ m.migration_id) :=
    List.filter_congr (fun m _ => rfl)
  rw [hcg, filter_key_ge_eq_drop l s n (c + 1) h hc]

theorem le_foldl_max : ∀ (l : List Migration) (a : Nat),
    a ≤ l.foldl (fun acc x => max acc x.migration_id) a
  | [], a => Nat.le_refl a
  | x :: xs, a =>
    Nat.le_trans (Nat.le_max_left a x.migration_id) (le_foldl_max xs _)

theorem le_foldl_max_of_mem : ∀ (l : List Migration) (a : Nat) (m : Migration), m ∈ l →
    m.migration_id ≤ l.foldl (fun acc x => max acc x.migration_id) a
  | x :: xs, a, m, hm => by
    rcases List.mem_cons.mp hm with heq | htail
    · subst heq
      exact Nat.le_trans (Nat.le_max_right a m.migration_id) (le_foldl_max xs _)
    · exact le_foldl_max_of_mem xs _ m htail

theorem foldl_max_le {c : Nat} : ∀ (l : List Migration) (a : Nat), a ≤ c →
    (∀ m ∈ l, m.migration_id ≤ c) →
    l.foldl (fun acc x => max acc x.migration_id) a ≤ c
  | [], _, ha, _ => ha
  | x :: xs, a, ha, hall =>
    foldl_max_le xs _ (Nat.max_le.mpr ⟨ha, hall x (List.mem_cons_self x xs)⟩)
      (fun m hm => hall m (List.mem_cons_of_mem x hm))

theorem maxIdOf_eq {l : List Migration} {n : Nat}
    (h : l.map keyId = List.range' 1 n) : maxIdOf l = n := by
  match l with
  | [] =>
    have : n = 0 := by simpa using (congrArg List.length h).symm
    simp [maxIdOf, this]
  | x :: xs =>
    obtain ⟨hx, hxs, hn⟩ := keys_cons_range' h
    have hub : maxIdOf (x :: xs) ≤ n := by
      refine foldl_max_le xs x.migration_id ?_ ?_
      · have := (key_bounds_of_map_range' h x (List.mem_cons_self x xs)).2
        omega
      · intro m hm
        have := (key_bounds_of_map_range' h m (List.mem_cons_of_mem x hm)).2
        omega
    have hnmem : n ∈ (x :: xs).map keyId := by
      rw [h, List.mem_range'_1]
      have hpos : 0 < n := Nat.pos_of_ne_zero hn
      omega
    obtain ⟨m, hm, hkm⟩ := List.mem_map.mp hnmem
    have hlb : n ≤ maxIdOf (x :: xs) := by
      rcases List.mem_cons.mp hm with heq | htail
      · subst heq; rw [← hkm]; exact le_foldl_max xs _
      · rw [← hkm]; exact le_foldl_max_of_mem xs _ m htail
    exact Nat.le_antisymm hub hlb

theorem max_old_id_eq {l : List Migration} {n : Nat}
    (h : l.map keyId = List.range' 1 n) :
    (if l.isEmpty then 0 else maxIdOf l) = n := by
  match l with
  | [] =>
    have : n = 0 := by simpa using (congrArg List.length h).symm
    simp [this]
  | x :: xs => simpa using maxIdOf_eq h

/-! ### Divergence-engine characterizations -/

theorem get_diff_some (db fs : List Migration) (strict : Bool) (d : Migration)
    (h : findDivergence strict (db.zip fs) = some d) :
    get_diff db fs strict =
      (pySortedRev (db.filter (fun m => d.migration_id ≤ m.migration_id)),
       pySorted (fs.filter (fun m => d.migration_id ≤ m.migration_id))) := by
  unfold get_diff
  rw [h]

theorem get_diff_none (db fs : List Migration) (strict : Bool)
    (h : findDivergence strict (db.zip fs) = none) :
    get_diff db fs strict =
      ([], pySorted (fs.filter
        (fun m => (if db.isEmpty then 0 else maxIdOf db) < m.migration_id))) := by
  unfold get_diff
  rw [h]

/-- both branches returned by `get_diff` pass the re-sorting asserts of
`apply_all` and `unapply_all` -/
theorem get_diff_branch_sorts (db fs : List Migration) (strict : Bool) :
    pySortedRev (get_diff db fs strict).1 = (get_diff db fs strict).1 ∧
    pySorted (get_diff db fs strict).2 = (get_diff db fs strict).2 := by
  cases h : findDivergence strict (db.zip fs) with
  | none => rw [get_diff_none db fs strict h]; exact ⟨rfl, pySorted_idem _⟩
  | some d => rw [get_diff_some db fs strict d h]; exact ⟨pySortedRev_idem _, pySorted_idem _⟩

theorem upDigestsMatch_mode (a b : Migration)
    (ha : a.up_digest = digest a.up) (hb : b.up_digest = digest b.up) (s1 s2 : Bool) :
    upDigestsMatch s1 a b = upDigestsMatch s2 a b := by
  cases s1 <;> cases s2 <;> simp [upDigestsMatch, ha, hb]

theorem findDivergence_mode (ps : List (Migration × Migration))
    (h : ∀ p ∈ ps, upDigestsMatch true p.1 p.2 = upDigestsMatch false p.1 p.2) :
    findDivergence true ps = findDivergence false ps := by
  induction ps with
  | nil => rfl
  | cons q rest ih =>
    obtain ⟨d, f⟩ := q
    have hh := h (d, f) (List.mem_cons_self _ _)
    simp only [findDivergence]
    rw [← hh]
    by_cases hm : upDigestsMatch true d f = true
    · simp only [hm, if_true]
      exact ih (fun p hp => h p (List.mem_cons_of_mem _ hp))
    · rw [Bool.not_eq_true] at hm
      simp [hm]

/-! ### Claim theorems: the divergence engine -/

/-- C2: for histories and filesystem sets sorted ascending by id, if the
lockstep walk finds no up-digest difference, `get_diff` returns an empty
`old_branch` and a `new_branch` holding exactly the filesystem migrations
with id strictly greater than the maximum id in the history (0 when the
history is empty), in ascending order. -/
theorem fast_path_append (db fs : List Migration) (strict : Bool)
    (hdb : StrictAsc db) (hfs : StrictAsc fs)
    (hall : ∀ p ∈ db.zip fs, upDigestsMatch strict p.1 p.2 = true) :
    get_diff db fs strict =
      ([], fs.filter (fun m => (if db.isEmpty then 0 else maxIdOf db) < m.migration_id)) := by
  rw [get_diff_none db fs strict ((findDivergence_eq_none_iff strict _).mpr hall),
    pySorted_eq_self ((hfs.filter _).sorted_le)]

theorem fast_path_append_witness :
    get_diff [] [cF1] true =
      ([], [cF1].filter
        (fun m => (if ([] : List Migration).isEmpty then 0 else maxIdOf []) < m.migration_id)) :=
  fast_path_append [] [cF1] true List.Pairwise.nil
    (List.pairwise_singleton _ cF1) (fun p hp => absurd hp (by simp))

/-- C1: for histories and filesystem sets sorted strictly ascending by id,
if the lockstep walk first finds differing up digests at the pair for
migration `k` (all earlier pairs agree), then `get_diff` with
`strict = true` returns an `old_branch` of exactly the history entries
with id at least `k` sorted descending, a `new_branch` of exactly the
filesystem migrations with id at least `k` sorted ascending, and the
minimum id of each branch is `k`. -/
theorem divergence_symmetry (db fs : List Migration) (k i : Nat) (dm fm : Migration)
    (hdb : StrictAsc db) (hfs : StrictAsc fs)
    (hpair : (db.zip fs)[i]? = some (dm, fm))
    (hpre : ∀ j, j < i → ∀ p : Migration × Migration,
      (db.zip fs)[j]? = some p → upDigestsMatch true p.1 p.2 = true)
    (hne : upDigestsMatch true dm fm = false)
    (hdk : dm.migration_id = k) (hfk : fm.migration_id = k) :
    get_diff db fs true =
      ((db.filter (fun m => k ≤ m.migration_id)).reverse,
       fs.filter (fun m => k ≤ m.migration_id)) ∧
    (∀ m ∈ (get_diff db fs true).1, k ≤ m.migration_id) ∧
    (∃ m ∈ (get_diff db fs true).1, m.migration_id = k) ∧
    (∀ m ∈ (get_diff db fs true).2, k ≤ m.migration_id) ∧
    (∃ m ∈ (get_diff db fs true).2, m.migration_id = k) := by
  have hfd : findDivergence true (db.zip fs) = some dm :=
    findDivergence_eq_some_of true _ i dm fm hpair hpre hne
  have hmain : get_diff db fs true =
      ((db.filter (fun m => k ≤ m.migration_id)).reverse,
       fs.filter (fun m => k ≤ m.migration_id)) := by
    rw [get_diff_some db fs true dm hfd, hdk,
      pySortedRev_eq_reverse (hdb.filter _), pySorted_eq_self ((hfs.filter _).sorted_le)]
  have hdm : dm ∈ db := (List.of_mem_zip (List.getElem?_mem hpair)).1
  have hfm : fm ∈ fs := (List.of_mem_zip (List.getElem?_mem hpair)).2
  refine ⟨hmain, ?_, ?_, ?_, ?_⟩
  · rw [hmain]
    intro m hm
    rw [List.mem_reverse] at hm
    exact of_decide_eq_true (List.mem_filter.mp hm).2
  · rw [hmain]
    exact ⟨dm, List.mem_reverse.mpr (List.mem_filter.mpr
      ⟨hdm, decide_eq_true (hdk ▸ Nat.le_refl k)⟩), hdk⟩
  · rw [hmain]
    intro m hm
    exact of_decide_eq_true (List.mem_filter.mp hm).2
  · rw [hmain]
    exact ⟨fm, List.mem_filter.mpr ⟨hfm, decide_eq_true (hfk ▸ Nat.le_refl k)⟩, hfk⟩

theorem divergence_symmetry_witness :
    get_diff [cM1] [cF1] true =
      (([cM1].filter (fun m => 1 ≤ m.migration_id)).reverse,
       [cF1].filter (fun m => 1 ≤ m.migration_id)) ∧
    (∀ m ∈ (get_diff [cM1] [cF1] true).1, 1 ≤ m.migration_id) ∧
    (∃ m ∈ (get_diff [cM1] [cF1] true).1, m.migration_id = 1) ∧
    (∀ m ∈ (get_diff [cM1] [cF1] true).2, 1 ≤ m.migration_id) ∧
    (∃ m ∈ (get_diff [cM1] [cF1] true).2, m.migration_id = 1) :=
  divergence_symmetry [cM1] [cF1] 1 0 cM1 cF1
    (List.pairwise_singleton _ cM1) (List.pairwise_singleton _ cF1) rfl
    (fun j hj _ _ => absurd hj (Nat.not_lt_zero j)) (by decide) rfl rfl

/-- C10: when every migration record on both sides stores an `up_digest`
equal to the digest of its up body, `get_diff` under strict digest
checking returns the same pair as under non-strict digest checking. -/
theorem strict_nonstrict_agree (db fs : List Migration)
    (hdb : ∀ m ∈ db, m.up_digest = digest m.up)
    (hfs : ∀ m ∈ fs, m.up_digest = digest m.up) :
    get_diff db fs true = get_diff db fs false := by
  have hfd : findDivergence true (db.zip fs) = findDivergence false (db.zip fs) := by
    refine findDivergence_mode _ (fun p hp => ?_)
    obtain ⟨a, b⟩ := p
    obtain ⟨ha, hb⟩ := List.of_mem_zip hp
    exact upDigestsMatch_mode a b (hdb a ha) (hfs b hb) true false
  unfold get_diff
  rw [hfd]

theorem strict_nonstrict_agree_witness :
    get_diff [wM1] [wF1] true = get_diff [wM1] [wF1] false :=
  strict_nonstrict_agree [wM1] [wF1]
    (fun m hm => by rw [List.mem_singleton] at hm; subst hm; rfl)
    (fun m hm => by rw [List.mem_singleton] at hm; subst hm; rfl)

/-- C4: on inputs sorted strictly ascending by id, `get_diff` returns an
`old_branch` strictly descending and a `new_branch` strictly ascending by
id; `apply_all` verifies ascending order and `unapply_all` descending
order before executing anything, failing the assert otherwise. -/
theorem order_invariants :
    (∀ (db fs : List Migration) (strict : Bool), StrictAsc db → StrictAsc fs →
      StrictDesc (get_diff db fs strict).1 ∧ StrictAsc (get_diff db fs strict).2) ∧
    (∀ ms : List Migration, pySorted ms = ms ↔
      List.Sorted (fun a b => keyId a ≤ keyId b) ms) ∧
    (∀ (env : ExecEnv) (s : DbState) (ms : List Migration), pySorted ms ≠ ms →
      apply_all env s ms = .error (.assertionFailed, s)) ∧
    (∀ ms : List Migration, pySortedRev ms = ms ↔
      List.Sorted (fun a b => keyId b ≤ keyId a) ms) ∧
    (∀ (env : ExecEnv) (s : DbState) (ms : List Migration), pySortedRev ms ≠ ms →
      unapply_all env s ms = .error (.assertionFailed, s)) := by
  refine ⟨?_, pySorted_eq_self_iff, ?_, pySortedRev_eq_self_iff, ?_⟩
  · intro db fs strict hdb hfs
    cases h : findDivergence strict (db.zip fs) with
    | none =>
      rw [get_diff_none db fs strict h]
      exact ⟨List.Pairwise.nil,
        by rw [pySorted_eq_self ((hfs.filter _).sorted_le)]; exact hfs.filter _⟩
    | some d =>
      rw [get_diff_some db fs strict d h]
      constructor
      · rw [pySortedRev_eq_reverse (hdb.filter _)]
        exact List.pairwise_reverse.mpr (hdb.filter _)
      · rw [pySorted_eq_self ((hfs.filter _).sorted_le)]
        exact hfs.filter _
  · intro env s ms hne
    unfold apply_all
    rw [if_neg hne]
  · intro env s ms hne
    unfold unapply_all
    rw [if_neg hne]

theorem order_invariants_witness :
    (StrictDesc (get_diff [cM1] [cF1] false).1 ∧ StrictAsc (get_diff [cM1] [cF1] false).2) ∧
    (pySorted [sM1, sM2] = [sM1, sM2] ↔
      List.Sorted (fun a b => keyId a ≤ keyId b) [sM1, sM2]) ∧
    apply_all envAll sEmpty [sM2, sM1] = .error (.assertionFailed, sEmpty) ∧
    unapply_all envAll sEmpty [sM1, sM2] = .error (.assertionFailed, sEmpty) :=
  ⟨order_invariants.1 [cM1] [cF1] false
      (List.pairwise_singleton _ cM1) (List.pairwise_singleton _ cF1),
   order_invariants.2.1 [sM1, sM2],
   order_invariants.2.2.1 envAll sEmpty [sM2, sM1] (by decide),
   order_invariants.2.2.2.2 envAll sEmpty [sM1, sM2] (by decide)⟩

/-! ### Apply/unapply engine computation lemmas -/

theorem except_ok_bind {ε α β : Type} (a : α) (f : α → Except ε β) :
    (Except.ok a >>= f) = f a := rfl

theorem except_error_bind {ε α β : Type} (e : ε) (f : α → Except ε β) :
    (Except.error e >>= f : Except ε β) = Except.error e := rfl


theorem applyUpList_ok (env : ExecEnv) :
    ∀ (ms : List Migration) (s : DbState), (∀ m ∈ ms, env m.up = true) →
      applyUpList env s ms =
        .ok ⟨s.ledger ++ ms.map insertedRow, s.executed ++ ms.map (fun m => m.up)⟩
  | [], s, _ => by simp [applyUpList]
  | m :: rest, s, h => by
    have hm : env m.up = true := h m (List.mem_cons_self _ _)
    simp only [applyUpList, apply_up, execStmt, hm, if_true, except_ok_bind]
    rw [applyUpList_ok env rest _ (fun x hx => h x (List.mem_cons_of_mem _ hx))]
    simp [List.append_assoc]

theorem applyUpList_fail (env : ExecEnv) :
    ∀ (ms : List Migration) (s : DbState) (j : Nat) (mj : Migration),
      ms[j]? = some mj →
      (∀ i, i < j → ∀ p : Migration, ms[i]? = some p → env p.up = true) →
      env mj.up = false →
      ∃ sErr : DbState, applyUpList env s ms = .error (.execFailed mj.up, sErr)
  | [], _, j, mj, hj, _, _ => by simp at hj
  | m :: rest, s, 0, mj, hj, _, hf => by
    simp only [List.getElem?_cons_zero, Option.some.injEq] at hj
    subst hj
    refine ⟨s, ?_⟩
    simp [applyUpList, apply_up, execStmt, hf, except_error_bind]
  | m :: rest, s, j+1, mj, hj, hpre, hf => by
    have hm : env m.up = true := hpre 0 (Nat.succ_pos j) m List.getElem?_cons_zero
    simp only [List.getElem?_cons_succ] at hj
    simp only [applyUpList, apply_up, execStmt, hm, if_true, except_ok_bind]
    exact applyUpList_fail env rest _ j mj hj
      (fun i hi p hp => hpre (i+1) (Nat.succ_lt_succ hi) p (by simpa using hp)) hf

theorem applyDownList_ok (env : ExecEnv) :
    ∀ (ms : List Migration) (s : DbState), (∀ m ∈ ms, m.down ≠ "" → env m.down = true) →
      applyDownList env s ms =
        .ok ⟨s.ledger.filter (fun r => ms.all (fun m => r.migration_id ≠ m.migration_id)),
             s.executed ++ (ms.filter (fun m => m.down ≠ "")).map (fun m => m.down)⟩
  | [], s, _ => by simp [applyDownList]
  | m :: rest, s, h => by
    have ih := applyDownList_ok env rest
    by_cases hd : m.down = ""
    · simp only [applyDownList, apply_down, hd, ne_eq, not_true_eq_false, if_false,
        except_ok_bind]
      rw [ih _ (fun x hx hne => h x (List.mem_cons_of_mem _ hx) hne)]
      refine congrArg Except.ok ?_
      refine congrArg₂ DbState.mk ?_ ?_
      · rw [List.filter_filter]
        refine List.filter_congr (fun r _ => ?_)
        simp [Bool.and_comm]
      · rw [List.filter_cons_of_neg (by simp [hd])]
    · have hm : env m.down = true := h m (List.mem_cons_self _ _) hd
      simp only [applyDownList, apply_down, hd, ne_eq, not_false_eq_true, if_true,
        execStmt, hm, except_ok_bind]
      rw [ih _ (fun x hx hne => h x (List.mem_cons_of_mem _ hx) hne)]
      refine congrArg Except.ok ?_
      refine congrArg₂ DbState.mk ?_ ?_
      · rw [List.filter_filter]
        refine List.filter_congr (fun r _ => ?_)
        simp [Bool.and_comm]
      · rw [List.filter_cons_of_pos (by simp [hd])]
        simp [List.append_assoc]

theorem apply_all_ok (env : ExecEnv) (s : DbState) (ms : List Migration)
    (hsort : pySorted ms = ms) (h : ∀ m ∈ ms, env m.up = true) :
    apply_all env s ms =
      .ok ⟨s.ledger ++ ms.map insertedRow, s.executed ++ ms.map (fun m => m.up)⟩ := by
  unfold apply_all
  rw [if_pos hsort]
  exact applyUpList_ok env ms s h

theorem unapply_all_ok (env : ExecEnv) (s : DbState) (ms : List Migration)
    (hsort : pySortedRev ms = ms) (h : ∀ m ∈ ms, m.down ≠ "" → env m.down = true) :
    unapply_all env s ms =
      .ok ⟨s.ledger.filter (fun r => ms.all (fun m => r.migration_id ≠ m.migration_id)),
           s.executed ++ (ms.filter (fun m => m.down ≠ "")).map (fun m => m.down)⟩ := by
  unfold unapply_all
  rw [if_pos hsort]
  exact applyDownList_ok env ms s h

theorem apply_all_fail (env : ExecEnv) (s : DbState) (ms : List Migration)
    (j : Nat) (mj : Migration) (hsort : pySorted ms = ms)
    (hj : ms[j]? = some mj)
    (hpre : ∀ i, i < j → ∀ p : Migration, ms[i]? = some p → env p.up = true)
    (hf : env mj.up = false) :
    ∃ sErr : DbState, apply_all env s ms = .error (.execFailed mj.up, sErr) := by
  unfold apply_all
  rw [if_pos hsort]
  exact applyUpList_fail env ms s j mj hj hpre hf

/-! ### Claim theorems: the apply engine and the runner -/

/-- C9: the ledger row inserted by `apply_up` stores digests recomputed
from the stored bodies; the digest fields carried on the in-memory record
are ignored at insert time; and both `apply_up` and `apply_down` preserve
the invariant that every ledger row's stored digests match its bodies. -/
theorem inserted_digests_recomputed :
    (∀ (env : ExecEnv) (s : DbState) (m : Migration) (d1 d2 : String),
      apply_up env s { m with up_digest := d1, down_digest := d2 } = apply_up env s m) ∧
    (∀ (env : ExecEnv) (s : DbState) (m : Migration) (s1 : DbState),
      apply_up env s m = .ok s1 →
      s1.ledger = s.ledger ++ [insertedRow m] ∧ WfRow (insertedRow m)) ∧
    (∀ (env : ExecEnv) (s : DbState) (m : Migration) (s1 : DbState),
      (∀ r ∈ s.ledger, WfRow r) → apply_up env s m = .ok s1 →
      ∀ r ∈ s1.ledger, WfRow r) ∧
    (∀ (env : ExecEnv) (s : DbState) (m : Migration) (s1 : DbState),
      (∀ r ∈ s.ledger, WfRow r) → apply_down env s m = .ok s1 →
      ∀ r ∈ s1.ledger, WfRow r) := by
  have hok : ∀ (env : ExecEnv) (s : DbState) (m : Migration) (s1 : DbState),
      apply_up env s m = .ok s1 →
      s1.ledger = s.ledger ++ [insertedRow m] ∧ WfRow (insertedRow m) := by
    intro env s m s1 h
    by_cases he : env m.up = true
    · simp only [apply_up, execStmt, he, if_true, except_ok_bind, Except.ok.injEq] at h
      subst h
      exact ⟨rfl, rfl, rfl⟩
    · rw [Bool.not_eq_true] at he
      simp [apply_up, execStmt, he, except_error_bind] at h
  refine ⟨fun env s m d1 d2 => rfl, hok, ?_, ?_⟩
  · intro env s m s1 hwf h r hr
    rw [(hok env s m s1 h).1] at hr
    rcases List.mem_append.mp hr with hmem | hmem
    · exact hwf r hmem
    · rw [List.mem_singleton] at hmem
      subst hmem
      exact ⟨rfl, rfl⟩
  · intro env s m s1 hwf h r hr
    by_cases hd : m.down = ""
    · simp only [apply_down, hd, ne_eq, not_true_eq_false, if_false, except_ok_bind,
        Except.ok.injEq] at h
      subst h
      exact hwf r (List.mem_of_mem_filter hr)
    · by_cases he : env m.down = true
      · simp only [apply_down, hd, ne_eq, not_false_eq_true, if_true, execStmt, he,
          except_ok_bind, Except.ok.injEq] at h
        subst h
        exact hwf r (List.mem_of_mem_filter hr)
      · rw [Bool.not_eq_true] at he
        simp [apply_down, hd, execStmt, he, except_error_bind] at h

theorem inserted_digests_recomputed_witness :
    apply_up envAll sEmpty { sM1 with up_digest := "ZZZ", down_digest := "QQQ" }
      = apply_up envAll sEmpty sM1 ∧
    ((⟨[insertedRow sM1], ["U1"]⟩ : DbState).ledger = sEmpty.ledger ++ [insertedRow sM1] ∧
      WfRow (insertedRow sM1)) ∧
    (∀ r ∈ (⟨[insertedRow sM1], ["U1"]⟩ : DbState).ledger, WfRow r) ∧
    (∀ r ∈ (⟨[], ["D1"]⟩ : DbState).ledger, WfRow r) :=
  ⟨inserted_digests_recomputed.1 envAll sEmpty sM1 "ZZZ" "QQQ",
   by
    have h := inserted_digests_recomputed.2.1 envAll sEmpty sM1 ⟨[insertedRow sM1], ["U1"]⟩ rfl
    exact ⟨h.1, h.2⟩,
   inserted_digests_recomputed.2.2.1 envAll sEmpty sM1 ⟨[insertedRow sM1], ["U1"]⟩
     (fun r hr => absurd hr (List.not_mem_nil r)) rfl,
   inserted_digests_recomputed.2.2.2 envAll sEmpty sM1 ⟨[], ["D1"]⟩
     (fun r hr => absurd hr (List.not_mem_nil r)) rfl⟩

/-- C7 (amended): with a non-empty `old_branch` and `auto_apply_down`
false, the run raises the fatal `RuntimeError` carrying the migration id
of the first (highest-id) `old_branch` entry, and aborts with no
mutation: the transaction state at the raise has the pre-run ledger and
an empty execution log, and the committed history is unchanged. -/
theorem downs_blocked (env : ExecEnv) (db fs : List Migration)
    (strict : Bool) (o : Migration) (rest new : List Migration)
    (hdiff : get_diff (pySorted db) (pySorted fs) strict = (o :: rest, new)) :
    run_reconciliation env db fs false strict =
      .error (.runtimeErrorFailedAt o.migration_id, ⟨db, []⟩) ∧
    committedLedger db (run_reconciliation env db fs false strict) = db := by
  have hrun : run_reconciliation env db fs false strict =
      .error (.runtimeErrorFailedAt o.migration_id, ⟨db, []⟩) := by
    unfold run_reconciliation
    simp [hdiff]
  exact ⟨hrun, by rw [hrun]; rfl⟩

theorem downs_blocked_witness :
    run_reconciliation envAll [sM1] [sF1] false false =
      .error (.runtimeErrorFailedAt sM1.migration_id, ⟨[sM1], []⟩) ∧
    committedLedger [sM1] (run_reconciliation envAll [sM1] [sF1] false false) = [sM1] :=
  downs_blocked envAll [sM1] [sF1] false sM1 [] [sF1] (by decide)

/-- C7 counterexample to the reporting clause: two runs whose old
branches differ in migration 2's up and down bodies raise the identical
exception, which carries only the first old-branch migration id — so the
error does not report every migration id and body in `old_branch`. -/
theorem downs_blocked_counterexample :
    (get_diff (pySorted [sM1, sM2]) (pySorted [sF1]) false).1 = [sM2, sM1] ∧
    (get_diff (pySorted [sM1, sM2x]) (pySorted [sF1]) false).1 = [sM2x, sM1] ∧
    sM2.up ≠ sM2x.up ∧ sM2.down ≠ sM2x.down ∧
    errorOf (run_reconciliation envAll [sM1, sM2] [sF1] false false) =
      some (.runtimeErrorFailedAt 2) ∧
    errorOf (run_reconciliation envAll [sM1, sM2x] [sF1] false false) =
      some (.runtimeErrorFailedAt 2) := by decide

/-- C3 (amended): when the run reaches the up body of the `j`-th
new-branch migration and that execution fails, the run raises the
execution failure and the whole transaction is discarded: the committed
Database History equals its pre-run state (in particular the run's
old-branch deletions and all its insertions, including the one for the
failed migration and any later one, are un-committed). -/
theorem up_failure_atomicity (env : ExecEnv) (db fs : List Migration)
    (auto strict : Bool) (old new : List Migration) (j : Nat) (mj : Migration)
    (hdiff : get_diff (pySorted db) (pySorted fs) strict = (old, new))
    (hauto : old ≠ [] → auto = true)
    (hdown : ∀ m ∈ old, m.down ≠ "" → env m.down = true)
    (hj : new[j]? = some mj)
    (hpre : ∀ i, i < j → ∀ p : Migration, new[i]? = some p → env p.up = true)
    (hfail : env mj.up = false) :
    (∃ sErr : DbState, run_reconciliation env db fs auto strict =
      .error (.execFailed mj.up, sErr)) ∧
    committedLedger db (run_reconciliation env db fs auto strict) = db := by
  have hsorts := get_diff_branch_sorts (pySorted db) (pySorted fs) strict
  rw [hdiff] at hsorts
  obtain ⟨hos, hns⟩ := hsorts
  have hrun : ∃ sErr : DbState, run_reconciliation env db fs auto strict =
      .error (.execFailed mj.up, sErr) := by
    match old, hauto, hdown, hos with
    | [], _, _, _ =>
      obtain ⟨sErr, hfl⟩ :=
        apply_all_fail env ⟨db, []⟩ new j mj hns hj hpre hfail
      refine ⟨sErr, ?_⟩
      unfold run_reconciliation
      simp only [hdiff]
      exact hfl
    | o :: rest, hauto, hdown, hos =>
      have hatrue : auto = true := hauto (List.cons_ne_nil o rest)
      subst hatrue
      have hun := unapply_all_ok env ⟨db, []⟩ (o :: rest) hos hdown
      obtain ⟨sErr, hfl⟩ := apply_all_fail env
        ⟨List.filter (fun r => (o :: rest).all (fun m => r.migration_id ≠ m.migration_id)) db,
         [] ++ ((o :: rest).filter (fun m => m.down ≠ "")).map (fun m => m.down)⟩
        new j mj hns hj hpre hfail
      refine ⟨sErr, ?_⟩
      unfold run_reconciliation
      simp only [hdiff]
      rw [if_pos trivial, hun, except_ok_bind]
      exact hfl
  obtain ⟨sErr, heq⟩ := hrun
  exact ⟨⟨sErr, heq⟩, by rw [heq]; rfl⟩

theorem up_failure_atomicity_witness :
    (∃ sErr : DbState, run_reconciliation envFailU1x [] [sF1] false false =
      .error (.execFailed sF1.up, sErr)) ∧
    committedLedger [] (run_reconciliation envFailU1x [] [sF1] false false) = [] :=
  up_failure_atomicity envFailU1x [] [sF1] false false [] [sF1] 0 sF1
    (by decide) (fun hc => absurd rfl hc)
    (fun m hm => absurd hm (List.not_mem_nil m))
    List.getElem?_cons_zero
    (fun i hi p hp => absurd hi (Nat.not_lt_zero i)) (by decide)

/-- C3 counterexample to the claim as stated: migration 1 is the sole
new-branch entry and its up body fails, yet after the run the database
(the rolled-back pre-run history) still contains a Ledger Entry with
id ≥ 1 — the entry the old branch had deleted inside the discarded
transaction. -/
theorem up_failure_atomicity_counterexample :
    (get_diff (pySorted [sM1]) (pySorted [sF1]) false).2 = [sF1] ∧
    sF1.migration_id = 1 ∧
    run_reconciliation envFailU1x [sM1] [sF1] true false =
      .error (.execFailed sF1.up, ⟨[], ["D1"]⟩) ∧
    committedLedger [sM1]
      (run_reconciliation envFailU1x [sM1] [sF1] true false) = [sM1] ∧
    ([sM1].any (fun r => 1 ≤ r.migration_id)) = true := by decide

/-! ### Claim theorems: the Migration Set Loader -/

/-- C6: on a directory with no .sql files, `assert_all_migrations_present`
returns gracefully (goose.py line 43, "Exiting gracefully!"), but
`parse_migrations` applies `get_max_migration_id` to the empty listing
unconditionally (line 67) and Python `max` raises
`ValueError: max() arg is an empty sequence`, so `run_migrations` raises
during loading instead of proceeding with zero migrations. -/
theorem empty_dir_value_error :
    assert_all_migrations_present dirNoSql = .ok () ∧
    parse_migrations dirNoSql = .error .valueErrorEmptyMax ∧
    run_migrations envAll dirNoSql [] false false =
      .error (.valueErrorEmptyMax, ⟨[], []⟩) := by decide

theorem parse_migration_id (dir : Dir) (id : Nat) (m : Migration)
    (h : parse_migration dir id = .ok m) : m.migration_id = id := by
  unfold parse_migration at h
  cases h1 : dir.lookup (upName id) with
  | none => rw [h1] at h; exact absurd h (by simp)
  | some up =>
    rw [h1] at h
    cases h2 : dir.lookup (downName id) with
    | none => rw [h2] at h; exact absurd h (by simp)
    | some down =>
      rw [h2] at h
      cases h
      rfl

theorem mapM_parse_ids (dir : Dir) :
    ∀ (ids : List Nat) (ms : List Migration),
      ids.mapM (parse_migration dir) = .ok ms →
      ms.map (fun m => m.migration_id) = ids
  | [], ms, h => by
    rw [List.mapM_nil] at h
    cases h
    rfl
  | id :: rest, ms, h => by
    rw [List.mapM_cons] at h
    cases hx : parse_migration dir id with
    | error e => rw [hx, except_error_bind] at h; exact absurd h (by simp)
    | ok mfst =>
      rw [hx, except_ok_bind] at h
      cases hxs : rest.mapM (parse_migration dir) with
      | error e => rw [hxs, except_error_bind] at h; exact absurd h (by simp)
      | ok mrest =>
        rw [hxs, except_ok_bind] at h
        cases h
        rw [List.map_cons, parse_migration_id dir id mfst hx,
          mapM_parse_ids dir rest mrest hxs]

/-- C8: whenever the loading stage completes successfully, the returned
Filesystem Migration Set carries exactly the ids `1, ..., max_id` in
ascending order, with no gaps and no duplicates. -/
theorem loaded_ids_contiguous (dir : Dir) (ms : List Migration)
    (h : load_migrations dir = .ok ms) :
    ms.map (fun m => m.migration_id) = List.range' 1 ms.length := by
  unfold load_migrations at h
  cases ha : assert_all_migrations_present dir with
  | error e => rw [ha, except_error_bind] at h; exact absurd h (by simp)
  | ok u =>
    rw [ha, except_ok_bind] at h
    unfold parse_migrations at h
    cases hm : get_max_migration_id (get_migration_files_filtered dir) with
    | error e => rw [hm, except_error_bind] at h; exact absurd h (by simp)
    | ok maxId =>
      rw [hm, except_ok_bind] at h
      have hids := mapM_parse_ids dir _ ms h
      have hlen : ms.length = maxId := by
        have := congrArg List.length hids
        simpa using this
      rw [hids, hlen]

theorem loaded_ids_contiguous_witness :
    List.map (fun m => m.migration_id)
        ([⟨1, digest "u1", "u1", digest "d1", "d1"⟩] : List Migration)
      = List.range' 1
        (List.length ([⟨1, digest "u1", "u1", digest "d1", "d1"⟩] : List Migration)) :=
  loaded_ids_contiguous dirOne [⟨1, digest "u1", "u1", digest "d1", "d1"⟩] rfl

/-! ### Second-run lemmas (idempotence of reconciliation) -/

theorem range'_take (s n j : Nat) (hj : j ≤ n) :
    (List.range' s n).take j = List.range' s j := by
  have happ : List.range' s j ++ List.range' (s + j) (n - j) = List.range' s n := by
    rw [List.range'_append_1]
    congr 1
    omega
  rw [← happ, List.take_left' (List.length_range' s 1 j)]

theorem range'_drop (s n j : Nat) :
    (List.range' s n).drop j = List.range' (s + j) (n - j) := by
  by_cases hj : j ≤ n
  · have happ : List.range' s j ++ List.range' (s + j) (n - j) = List.range' s n := by
      rw [List.range'_append_1]
      congr 1
      omega
    rw [← happ, List.drop_left' (List.length_range' s 1 j)]
  · rw [List.drop_eq_nil_of_le (by simpa using Nat.le_of_not_le hj),
      show n - j = 0 by omega]
    rfl

theorem map_keys_take {l : List Migration} {s n : Nat} (j : Nat)
    (h : l.map keyId = List.range' s n) (hj : j ≤ n) :
    (l.take j).map keyId = List.range' s j := by
  rw [List.map_take, h, range'_take s n j hj]

theorem map_keys_drop {l : List Migration} {s n : Nat} (j : Nat)
    (h : l.map keyId = List.range' s n) :
    (l.drop j).map keyId = List.range' (s + j) (n - j) := by
  rw [List.map_drop, h, range'_drop]

theorem map_key_insertedRow (l : List Migration) :
    (l.map insertedRow).map keyId = l.map keyId := by
  rw [List.map_map]
  rfl

theorem take_zip_pairs (l1 l2 : List Migration) (t : Nat) :
    (l1.zip l2).take t = (l1.take t).zip (l2.take t) :=
  List.take_zipWith

theorem mem_take_getElem {l : List (Migration × Migration)} {t : Nat}
    {p : Migration × Migration} (hp : p ∈ l.take t) :
    ∃ j, j < t ∧ l[j]? = some p := by
  obtain ⟨j, hj⟩ := List.mem_iff_getElem?.mp hp
  by_cases hjt : j < t
  · refine ⟨j, hjt, ?_⟩
    rw [← List.getElem?_take_of_lt hjt]
    exact hj
  · rw [List.getElem?_take_eq_none (Nat.le_of_not_lt hjt)] at hj
    exact absurd hj (by simp)

theorem mem_zip_map_insertedRow : ∀ (l : List Migration) (p : Migration × Migration),
    p ∈ (l.map insertedRow).zip l → ∃ x ∈ l, p = (insertedRow x, x)
  | [], p, hp => absurd hp (List.not_mem_nil p)
  | x :: xs, p, hp => by
    rw [List.map_cons, List.zip_cons_cons] at hp
    rcases List.mem_cons.mp hp with heq | htail
    · exact ⟨x, List.mem_cons_self x xs, heq⟩
    · obtain ⟨y, hy, hpy⟩ := mem_zip_map_insertedRow xs p htail
      exact ⟨y, List.mem_cons_of_mem x hy, hpy⟩

theorem insertedRow_match (x : Migration) (hw : x.up_digest = digest x.up) (sc : Bool) :
    upDigestsMatch sc (insertedRow x) x = true := by
  cases sc <;> simp [upDigestsMatch, insertedRow, hw]

/-- both branches of `get_diff` are empty when every walked pair matches
and no filesystem id exceeds the history maximum -/
theorem get_diff_nil_nil (db fs : List Migration) (strict : Bool)
    (h1 : ∀ p ∈ db.zip fs, upDigestsMatch strict p.1 p.2 = true)
    (h2 : ∀ mi ∈ fs, mi.migration_id ≤ (if db.isEmpty then 0 else maxIdOf db)) :
    get_diff db fs strict = ([], []) := by
  rw [get_diff_none db fs strict ((findDivergence_eq_none_iff strict _).mpr h1)]
  have hfe : fs.filter
      (fun m => (if db.isEmpty then 0 else maxIdOf db) < m.migration_id) = [] :=
    List.filter_eq_nil_iff.mpr (fun a ha => by
      simp only [decide_eq_true_eq]
      exact Nat.not_lt.mpr (h2 a ha))
  rw [hfe]
  rfl

theorem filter_all_ne_split (A C B : List Migration)
    (hA : ∀ r ∈ A, ∀ mm ∈ B, r.migration_id ≠ mm.migration_id)
    (hC : ∀ r ∈ C, ∃ mm ∈ B, r.migration_id = mm.migration_id) :
    (A ++ C).filter (fun r => B.all (fun mm => r.migration_id ≠ mm.migration_id)) = A := by
  rw [List.filter_append]
  have h1 : A.filter (fun r => B.all (fun mm => r.migration_id ≠ mm.migration_id)) = A :=
    List.filter_eq_self.mpr (fun r hr =>
      List.all_eq_true.mpr (fun mm hmm => decide_eq_true (hA r hr mm hmm)))
  have h2 : C.filter (fun r => B.all (fun mm => r.migration_id ≠ mm.migration_id)) = [] :=
    List.filter_eq_nil_iff.mpr (fun r hr => by
      obtain ⟨mm, hmm, heq⟩ := hC r hr
      simp only [Bool.not_eq_true]
      exact List.all_eq_false.mpr ⟨mm, hmm, by simp [heq]⟩)
  rw [h1, h2, List.append_nil]

/-- every pair of the lockstep walk between the post-run ledger
(`db`-prefix of length `t` followed by the rows inserted from the
filesystem tail) and the unchanged filesystem set matches, in either
digest mode -/
theorem assembled_pairs_match (db fs R : List Migration) (t : Nat) (sc sc2 : Bool)
    (hR : R = (fs.drop t).map insertedRow)
    (htd : t ≤ db.length) (htf : t ≤ fs.length)
    (hwdb : ∀ mi ∈ db, mi.up_digest = digest mi.up)
    (hwfs : ∀ mi ∈ fs, mi.up_digest = digest mi.up)
    (hpre : ∀ j, j < t → ∀ p : Migration × Migration,
      (db.zip fs)[j]? = some p → upDigestsMatch sc p.1 p.2 = true) :
    ∀ p ∈ (db.take t ++ R).zip fs, upDigestsMatch sc2 p.1 p.2 = true := by
  have hsplit : (db.take t ++ R).zip fs = (db.take t).zip (fs.take t) ++ R.zip (fs.drop t) := by
    conv_lhs => rw [← List.take_append_drop t fs]
    exact List.zip_append (by rw [List.length_take_of_le htd, List.length_take_of_le htf])
  intro p hp
  rw [hsplit] at hp
  rcases List.mem_append.mp hp with hp1 | hp2
  · rw [← take_zip_pairs db fs t] at hp1
    obtain ⟨j, hjt, hj⟩ := mem_take_getElem hp1
    have hm := hpre j hjt p hj
    obtain ⟨a, b⟩ := p
    obtain ⟨hadb, hbfs⟩ := List.of_mem_zip (List.getElem?_mem hj)
    rw [upDigestsMatch_mode a b (hwdb a hadb) (hwfs b hbfs) sc2 sc]
    exact hm
  · subst hR
    obtain ⟨x, hx, hpx⟩ := mem_zip_map_insertedRow (fs.drop t) p hp2
    subst hpx
    exact insertedRow_match x (hwfs x (List.drop_subset t fs hx)) sc2

/-- C5: running reconciliation twice in a row with no filesystem change
between the runs is a no-op the second time: for range-numbered,
digest-well-formed inputs, after a first run (any digest mode) in which
every SQL statement succeeds, diffing the resulting Database History
against the unchanged filesystem set yields empty branches in both strict
and non-strict digest mode. -/
theorem rerun_no_op (env : ExecEnv) (db fs : List Migration) (sc sc2 : Bool) (s1 : DbState)
    (henv : ∀ stmt, env stmt = true)
    (hdb : db.map keyId = List.range' 1 db.length)
    (hfs : fs.map keyId = List.range' 1 fs.length)
    (hwdb : ∀ mi ∈ db, mi.up_digest = digest mi.up)
    (hwfs : ∀ mi ∈ fs, mi.up_digest = digest mi.up)
    (hrun : run_reconciliation env db fs true sc = .ok s1) :
    get_diff (pySorted s1.ledger) (pySorted fs) sc2 = ([], []) := by
  have hdbAsc := strictAsc_of_map_range' hdb
  have hfsAsc := strictAsc_of_map_range' hfs
  have hdbs : pySorted db = db := pySorted_eq_self hdbAsc.sorted_le
  have hfss : pySorted fs = fs := pySorted_eq_self hfsAsc.sorted_le
  rw [hfss]
  cases hfd : findDivergence sc (db.zip fs) with
  | none =>
    have hdropsorted : pySorted (fs.drop db.length) = fs.drop db.length :=
      pySorted_eq_self ((hfsAsc.drop db.length).sorted_le)
    have hrun2 : run_reconciliation env db fs true sc =
        .ok ⟨db ++ (fs.drop db.length).map insertedRow,
             [] ++ (fs.drop db.length).map (fun mm => mm.up)⟩ := by
      unfold run_reconciliation
      rw [hdbs, hfss]
      simp only [get_diff_none db fs sc hfd, max_old_id_eq hdb]
      rw [filter_key_gt_eq_drop fs 1 fs.length db.length hfs (by omega)]
      simp only [Nat.add_sub_cancel]
      rw [hdropsorted,
        apply_all_ok env ⟨db, []⟩ (fs.drop db.length) hdropsorted (fun mm _ => henv mm.up)]
    have hs1 : s1 = ⟨db ++ (fs.drop db.length).map insertedRow,
        [] ++ (fs.drop db.length).map (fun mm => mm.up)⟩ :=
      (Except.ok.inj (hrun2.symm.trans hrun)).symm
    subst hs1
    show get_diff (pySorted (db ++ (fs.drop db.length).map insertedRow)) fs sc2 = ([], [])
    by_cases hnm : fs.length ≤ db.length
    · rw [List.drop_eq_nil_of_le hnm]
      simp only [List.map_nil, List.append_nil]
      rw [hdbs]
      apply get_diff_nil_nil db fs sc2
      · intro p hp
        obtain ⟨a, b⟩ := p
        obtain ⟨hadb, hbfs⟩ := List.of_mem_zip hp
        rw [upDigestsMatch_mode a b (hwdb a hadb) (hwfs b hbfs) sc2 sc]
        exact (findDivergence_eq_none_iff sc _).mp hfd (a, b) hp
      · intro mi hmi
        rw [max_old_id_eq hdb]
        have := (key_bounds_of_map_range' hfs mi hmi).2
        omega
    · have hnm2 : db.length ≤ fs.length := Nat.le_of_not_le hnm
      have hL1 : (db ++ (fs.drop db.length).map insertedRow).map keyId
          = List.range' 1 ((fs.length - db.length) + db.length) := by
        rw [List.map_append, hdb, map_key_insertedRow, map_keys_drop db.length hfs,
          List.range'_append_1]
      rw [pySorted_eq_self (strictAsc_of_map_range' hL1).sorted_le]
      apply get_diff_nil_nil
      · have hassembled := assembled_pairs_match db fs
          ((fs.drop db.length).map insertedRow) db.length sc sc2 rfl
          (Nat.le_refl _) hnm2 hwdb hwfs
          (fun j hj p hp =>
            (findDivergence_eq_none_iff sc _).mp hfd p (List.getElem?_mem hp))
        rw [List.take_length] at hassembled
        exact hassembled
      · intro mi hmi
        rw [max_old_id_eq hL1]
        have := (key_bounds_of_map_range' hfs mi hmi).2
        omega
  | some d =>
    obtain ⟨idx, f0, hpair, hne, hprefix⟩ := findDivergence_eq_some_elim sc _ d hfd
    obtain ⟨hdbi, hfsi⟩ := List.getElem?_zip_eq_some.mp hpair
    replace hdbi : db[idx]? = some d := hdbi
    replace hfsi : fs[idx]? = some f0 := hfsi
    have hidxn : idx < db.length := by
      obtain ⟨h, _⟩ := List.getElem?_eq_some_iff.mp hdbi
      exact h
    have hidxm : idx < fs.length := by
      obtain ⟨h, _⟩ := List.getElem?_eq_some_iff.mp hfsi
      exact h
    have hkd : d.migration_id = 1 + idx := by
      have h1 : (db.map keyId)[idx]? = some (keyId d) := by
        rw [List.getElem?_map, hdbi]
        rfl
      rw [hdb] at h1
      have h2 : (List.range' 1 db.length)[idx]? = some (1 + idx) := by
        rw [List.getElem?_eq_some_iff]
        exact ⟨by simpa using hidxn, by simp [List.getElem_range']⟩
      rw [h1] at h2
      exact Option.some.inj h2
    have holdr : pySortedRev (db.filter (fun m => d.migration_id ≤ m.migration_id))
        = (db.drop idx).reverse := by
      rw [filter_key_ge_eq_drop db 1 db.length d.migration_id hdb (by omega),
        show d.migration_id - 1 = idx by omega,
        pySortedRev_eq_reverse (hdbAsc.drop idx)]
    have hnewr : pySorted (fs.filter (fun m => d.migration_id ≤ m.migration_id))
        = fs.drop idx := by
      rw [filter_key_ge_eq_drop fs 1 fs.length d.migration_id hfs (by omega),
        show d.migration_id - 1 = idx by omega,
        pySorted_eq_self ((hfsAsc.drop idx).sorted_le)]
    have hnd : db.drop idx ≠ [] := by
      intro hc
      have := List.drop_eq_nil_iff.mp hc
      omega
    have hnrev : (db.drop idx).reverse ≠ [] := by simpa using hnd
    obtain ⟨o, rest, hor⟩ := List.exists_cons_of_ne_nil hnrev
    have hosort : pySortedRev (o :: rest) = o :: rest := by
      rw [← hor]
      exact pySortedRev_eq_self
        (List.pairwise_reverse.mpr ((hdbAsc.drop idx).imp (fun h => Nat.le_of_lt h)))
    have hnsort : pySorted (fs.drop idx) = fs.drop idx :=
      pySorted_eq_self ((hfsAsc.drop idx).sorted_le)
    have hfiltake : db.filter
        (fun r => (o :: rest).all (fun mm => r.migration_id ≠ mm.migration_id))
        = db.take idx := by
      conv_lhs => rw [← List.take_append_drop idx db]
      apply filter_all_ne_split
      · intro r hr mm hmm
        rw [← hor, List.mem_reverse] at hmm
        have hrk := key_bounds_of_map_range'
          (map_keys_take idx hdb (Nat.le_of_lt hidxn)) r hr
        have hmk := key_bounds_of_map_range' (map_keys_drop idx hdb) mm hmm
        omega
      · intro r hr
        refine ⟨r, ?_, rfl⟩
        rw [← hor, List.mem_reverse]
        exact hr
    have hrun2 : run_reconciliation env db fs true sc =
        .ok ⟨db.take idx ++ (fs.drop idx).map insertedRow,
          ([] ++ ((o :: rest).filter (fun mm => mm.down ≠ "")).map (fun mm => mm.down))
            ++ (fs.drop idx).map (fun mm => mm.up)⟩ := by
      unfold run_reconciliation
      rw [hdbs, hfss]
      simp only [get_diff_some db fs sc d hfd, holdr, hnewr, hor]
      rw [if_pos trivial,
        unapply_all_ok env ⟨db, []⟩ (o :: rest) hosort (fun mm _ _ => henv mm.down),
        except_ok_bind,
        apply_all_ok env _ _ hnsort (fun mm _ => henv mm.up)]
      refine congrArg Except.ok ?_
      refine congrArg₂ DbState.mk ?_ rfl
      dsimp only
      rw [hfiltake]
    have hs1 : s1 = ⟨db.take idx ++ (fs.drop idx).map insertedRow,
        ([] ++ ((o :: rest).filter (fun mm => mm.down ≠ "")).map (fun mm => mm.down))
          ++ (fs.drop idx).map (fun mm => mm.up)⟩ :=
      (Except.ok.inj (hrun2.symm.trans hrun)).symm
    subst hs1
    show get_diff (pySorted (db.take idx ++ (fs.drop idx).map insertedRow)) fs sc2 = ([], [])
    have hL1 : (db.take idx ++ (fs.drop idx).map insertedRow).map keyId
        = List.range' 1 ((fs.length - idx) + idx) := by
      rw [List.map_append, map_keys_take idx hdb (Nat.le_of_lt hidxn),
        map_key_insertedRow, map_keys_drop idx hfs, List.range'_append_1]
    rw [pySorted_eq_self (strictAsc_of_map_range' hL1).sorted_le]
    apply get_diff_nil_nil
    · exact assembled_pairs_match db fs _ idx sc sc2 rfl
        (Nat.le_of_lt hidxn) (Nat.le_of_lt hidxm) hwdb hwfs hprefix
    · intro mi hmi
      rw [max_old_id_eq hL1]
      have := (key_bounds_of_map_range' hfs mi hmi).2
      omega

theorem rerun_no_op_witness :
    get_diff (pySorted (⟨[insertedRow wM1], ["x"]⟩ : DbState).ledger) (pySorted [wM1]) true
      = ([], []) :=
  rerun_no_op envAll [] [wM1] false true ⟨[insertedRow wM1], ["x"]⟩
    (fun _ => rfl) rfl rfl
    (fun mi hmi => absurd hmi (List.not_mem_nil mi))
    (fun mi hmi => by rw [List.mem_singleton] at hmi; subst hmi; rfl)
    (by rfl)

end Goose
